import Mathlib

/-!
Verification of the cross-process logging pipeline of project-daystrom.

The TypeScript sources under `app/modules/app/src/log/index.ts`, the companion
logger, and the `TauriAppender` are embedded shallowly: JavaScript strings are
`List Char`, the relevant `String.prototype` operations are modelled by
executable Lean functions mirroring their ECMAScript semantics, and the
stateful parts (the source-map cache and the appender's `disabled` latch) are
modelled by explicit state passing.
-/

/-- Convert a Lean string literal to the `List Char` representation used for
JavaScript strings throughout this development. -/
def strL (s : String) : List Char := s.data

/-- Model of the whitespace class used by `String.prototype.trim`.
Restricted to the ASCII whitespace characters that occur in stack-trace text;
the exotic Unicode whitespace code points are not modelled. -/
def jsWs (c : Char) : Bool :=
  c == ' ' || c == '\t' || c == '\n' || c == '\r' || c == '\x0b' || c == '\x0c'

/-- Model of `String.prototype.trim` (both ends). -/
def jsTrim (s : List Char) : List Char :=
  ((s.dropWhile jsWs).reverse.dropWhile jsWs).reverse

/-- Model of `String.prototype.startsWith`. -/
def jsStartsWith (s pre : List Char) : Bool := pre.isPrefixOf s

/-- Model of `String.prototype.endsWith` with a single-character argument. -/
def jsEndsWithChar (s : List Char) (c : Char) : Bool :=
  match s.getLast? with
  | some d => d == c
  | none => false

/-- Model of `String.prototype.includes`: substring containment. -/
def jsIncludes : (s sub : List Char) → Bool
  | [], sub => sub.isEmpty
  | c :: t, sub => sub.isPrefixOf (c :: t) || jsIncludes t sub

/-- Model of `String.prototype.indexOf` with a single-character argument,
returning `none` for the JavaScript result `-1`. -/
def firstIdx (s : List Char) (c : Char) : Option Nat :=
  match s with
  | [] => none
  | a :: as => if a = c then some 0 else (firstIdx as c).map (· + 1)

/-- Model of `String.prototype.lastIndexOf` with a single-character argument,
returning `none` for the JavaScript result `-1`. -/
def lastIdx (s : List Char) (c : Char) : Option Nat :=
  match s with
  | [] => none
  | a :: as =>
    match lastIdx as c with
    | some i => some (i + 1)
    | none => if a = c then some 0 else none

/-- Model of `String.prototype.lastIndexOf(c, from)`: the search runs backward
from index `from` inclusive. -/
def lastIdxLe (s : List Char) (c : Char) (from_ : Nat) : Option Nat :=
  lastIdx (s.take (from_ + 1)) c

/-- Model of `String.prototype.slice(start)` for a non-negative start index. -/
def jsSliceFrom (s : List Char) (start : Nat) : List Char := s.drop start

/-- Model of `String.prototype.slice(start, stop)` for non-negative indices. -/
def jsSliceMid (s : List Char) (start stop : Nat) : List Char :=
  (s.take stop).drop start

/-- Model of `String.prototype.slice(start, -1)`: the negative end index is
normalised to `length - 1`, so the last character is dropped. -/
def jsSliceDropLast (s : List Char) (start : Nat) : List Char :=
  s.dropLast.drop start

/-- Numeric value of a decimal digit string. -/
def natOfDigits (s : List Char) : Nat :=
  s.foldl (fun a c => 10 * a + (c.toNat - 48)) 0

/-- Decimal-digit-string parse: `some` exactly on non-empty all-digit input. -/
def digitsVal (s : List Char) : Option Nat :=
  if s ≠ [] ∧ s.all Char.isDigit then some (natOfDigits s) else none

/-- Model of the composite `Number(s)` followed by the `Number.isInteger` test
from the parser: `some n` when `Number(s)` is the integer `n`, `none` when it
is `NaN` or a non-integer.  Restricted to the fragment relevant here: optional
sign followed by decimal digits, and the whitespace-only or empty string
(whose `Number` value is `0`).  Fractional, exponential, hexadecimal and
`Infinity` forms are not modelled. -/
def jsToNumberInt (s : List Char) : Option Int :=
  let t := jsTrim s
  if t = [] then some 0
  else if t.head? = some '-' then (digitsVal t.tail).map (fun n => -(n : Int))
  else if t.head? = some '+' then (digitsVal t.tail).map (fun n => (n : Int))
  else (digitsVal t).map (fun n => (n : Int))

/-! ## Message formatter (`formatArgs` in `log/index.ts`) -/

/-- Outcome of `JSON.stringify(v, null, 2)` on a non-string, non-number value:
a string, the JavaScript value `undefined` (for `undefined`, functions,
symbols), or a thrown exception (cyclic structures). -/
inductive StringifyOut where
  | str (s : List Char)
  | undef
  | throws
deriving DecidableEq, Repr

/-- A JavaScript argument as seen by `formatArgs`: a string (which passes the
`typeof arg === 'string'` test), a number within the safe-integer range, or
any other value abstracted by the outcome of `JSON.stringify(v, null, 2)`
together with its `String(v)` rendering. -/
inductive JsArg where
  | str (s : List Char)
  | num (n : Int)
  | other (out : StringifyOut) (toStr : List Char)
deriving DecidableEq, Repr

/-- `JSON.stringify(arg, null, 2)` for a numeric argument: primitives are
rendered without indentation, integers in decimal. -/
def stringifyNum (n : Int) : List Char := (toString n).data

/-- The body of the `args.map` callback in `formatArgs`, composed with the
`undefined`-to-empty-string conversion performed by `Array.prototype.join`:
strings pass through verbatim; other values yield their `JSON.stringify`
rendering, or their `String(..)` rendering when `JSON.stringify` throws; a
`JSON.stringify` result of `undefined` contributes the empty string to the
join. -/
def formatOneArg : JsArg → List Char
  | .str s => s
  | .num n => stringifyNum n
  | .other (.str j) _ => j
  | .other .undef _ => []
  | .other .throws toStr => toStr

/-- `parts.join(' ')`. -/
def joinSpace (parts : List (List Char)) : List Char :=
  List.intercalate [' '] parts

/-- Embedding of `formatArgs` from `log/index.ts`: empty argument list returns
the message unchanged, otherwise the formatted arguments are joined with
single spaces and appended after one space. -/
def formatArgs (message : List Char) (args : List JsArg) : List Char :=
  if args.length = 0 then message
  else message ++ ' ' :: joinSpace (args.map formatOneArg)

/-! ## Theorems for claim C6 -/

/-- C6: `formatArgs` returns the message unchanged on an empty argument list;
otherwise each string argument passes through verbatim, a non-string argument
is serialized (falling back to its `String(..)` rendering when serialization
throws), the parts are joined with single spaces and appended after one
space; the function is total (never throws); and the two concrete examples
`format("count:", [42]) = "count: 42"` and `format("msg", []) = "msg"` hold. -/
theorem claim_C6_formatArgs :
    (∀ message : List Char, formatArgs message [] = message) ∧
    (∀ message args, args ≠ [] →
      formatArgs message args = message ++ ' ' :: joinSpace (args.map formatOneArg)) ∧
    (∀ s : List Char, formatOneArg (.str s) = s) ∧
    (∀ toStr : List Char, formatOneArg (.other .throws toStr) = toStr) ∧
    formatArgs (strL (r"count:")) [.num 42] = strL (r"count: 42") ∧
    formatArgs (strL (r"msg")) [] = strL (r"msg") := by
  refine ⟨fun message => rfl, fun message args h => ?_, fun s => rfl, fun t => rfl, ?_, rfl⟩
  · simp [formatArgs, List.length_eq_zero, h]
  · decide

/-- Witness for C6 at concrete inputs. -/
theorem claim_C6_formatArgs_witness :
    formatArgs (strL (r"a")) [.str (strL (r"b"))] =
      strL (r"a") ++ ' ' :: joinSpace ([JsArg.str (strL (r"b"))].map formatOneArg) :=
  claim_C6_formatArgs.2.1 (strL (r"a")) [.str (strL (r"b"))] (by decide)

/-! ## Internal frame filter (claim C5)

Two implementations exist in the repository: the one in
`app/modules/app/src/log/index.ts` (five markers) and the one in the
companion logger (three markers only). -/

/-- Embedding of `isInternalFrame` from `app/modules/app/src/log/index.ts`. -/
def isInternalFrame (file : List Char) : Bool :=
  jsIncludes file (strL (r"/log/")) ||
  jsIncludes file (strL (r"/log.")) ||
  jsIncludes file (strL (r"\log\")) ||
  jsIncludes file (strL (r"\log.")) ||
  jsIncludes file (strL (r"plugin-log"))

/-- Embedding of `isInternalFrame` from the companion logger (the second
logger implementation in the repository): only the `/log.`, `\log.` and
`plugin-log` markers are tested. -/
def companionIsInternalFrame (file : List Char) : Bool :=
  jsIncludes file (strL (r"/log.")) ||
  jsIncludes file (strL (r"\log.")) ||
  jsIncludes file (strL (r"plugin-log"))

/-- C5 counterexample: a path with a `/log/` directory segment (and no other
marker) is classified internal by the app-module implementation but NOT by the
companion implementation, so the claim does not hold for both
implementations. -/
theorem claim_C5_counterexample :
    jsIncludes (strL (r"http://localhost:1420/modules/app/src/log/index.ts")) (strL (r"/log/")) = true ∧
    isInternalFrame (strL (r"http://localhost:1420/modules/app/src/log/index.ts")) = true ∧
    companionIsInternalFrame (strL (r"http://localhost:1420/modules/app/src/log/index.ts")) = false := by
  decide

/-- C5 (amended): the app-module `isInternalFrame` returns true whenever the
path contains any of the five markers; the companion implementation returns
true for the `/log.`, `\log.` and `plugin-log` markers but does not test the
bare `/log/` or `\log\` directory segments; both return false on the
substring-but-not-boundary paths ending in `App.vue`, `main.ts`, `dialog.ts`
and `login.ts`. -/
theorem claim_C5_isInternalFrame :
    (∀ s, jsIncludes s (strL (r"/log/")) = true → isInternalFrame s = true) ∧
    (∀ s, jsIncludes s (strL (r"/log.")) = true → isInternalFrame s = true) ∧
    (∀ s, jsIncludes s (strL (r"\log\")) = true → isInternalFrame s = true) ∧
    (∀ s, jsIncludes s (strL (r"\log.")) = true → isInternalFrame s = true) ∧
    (∀ s, jsIncludes s (strL (r"plugin-log")) = true → isInternalFrame s = true) ∧
    (∀ s, jsIncludes s (strL (r"/log.")) = true → companionIsInternalFrame s = true) ∧
    (∀ s, jsIncludes s (strL (r"\log.")) = true → companionIsInternalFrame s = true) ∧
    (∀ s, jsIncludes s (strL (r"plugin-log")) = true → companionIsInternalFrame s = true) ∧
    isInternalFrame (strL (r"http://localhost:1420/modules/app/src/App.vue")) = false ∧
    isInternalFrame (strL (r"http://localhost:1420/modules/app/src/main.ts")) = false ∧
    isInternalFrame (strL (r"http://localhost:1420/modules/app/src/dialog.ts")) = false ∧
    isInternalFrame (strL (r"http://localhost:1420/modules/app/src/login.ts")) = false ∧
    companionIsInternalFrame (strL (r"http://localhost:1420/modules/app/src/App.vue")) = false ∧
    companionIsInternalFrame (strL (r"http://localhost:1420/modules/app/src/main.ts")) = false ∧
    companionIsInternalFrame (strL (r"http://localhost:1420/modules/app/src/dialog.ts")) = false ∧
    companionIsInternalFrame (strL (r"http://localhost:1420/modules/app/src/login.ts")) = false := by
  refine ⟨fun s h => by simp [isInternalFrame, h],
          fun s h => by simp [isInternalFrame, h],
          fun s h => by simp [isInternalFrame, h],
          fun s h => by simp [isInternalFrame, h],
          fun s h => by simp [isInternalFrame, h],
          fun s h => by simp [companionIsInternalFrame, h],
          fun s h => by simp [companionIsInternalFrame, h],
          fun s h => by simp [companionIsInternalFrame, h],
          ?_, ?_, ?_, ?_, ?_, ?_, ?_, ?_⟩ <;> decide

/-- Witness for C5 at a concrete path containing a `/log/` segment. -/
theorem claim_C5_isInternalFrame_witness :
    isInternalFrame (strL (r"C:\app\src\log\index.ts")) = true ∧
    isInternalFrame (strL (r"http://localhost:1420/modules/app/src/log/index.ts")) = true :=
  ⟨claim_C5_isInternalFrame.2.2.1 (strL (r"C:\app\src\log\index.ts")) (by decide),
   claim_C5_isInternalFrame.1 (strL (r"http://localhost:1420/modules/app/src/log/index.ts")) (by decide)⟩

/-! ## URL model and `stripOrigin` (claim C9)

`stripOrigin` calls the host constructor `new URL(url)` and returns
`pathname.slice(1)` on success, the input unchanged when the constructor
throws.  The constructor is modelled below by a restricted executable
fragment of the WHATWG URL parser. -/

/-- A character allowed inside a URL scheme after the first (ASCII
alphanumeric, `+`, `-`, `.`). -/
def isSchemeChar (c : Char) : Bool := c.isAlphanum || c == '+' || c == '-' || c == '.'

/-- Split a leading `scheme:` from a URL string, per the WHATWG scheme state:
the scheme starts with an ASCII alpha, continues with scheme characters, and
is terminated by a colon; anything else is not an absolute URL. -/
def takeScheme (s : List Char) : Option (List Char × List Char) :=
  match s with
  | [] => none
  | c :: _ =>
    if c.isAlpha then
      let sch := s.takeWhile isSchemeChar
      match s.drop sch.length with
      | ':' :: r => some (sch, r)
      | _ => none
    else none

/-- The WHATWG special schemes (minus `file`, which never occurs here). -/
def specialSchemes : List (List Char) :=
  [strL (r"http"), strL (r"https"), strL (r"ws"), strL (r"wss"), strL (r"ftp"), strL (r"file")]

/-- True for characters terminating an authority component of a special URL. -/
def isAuthorityEnd (c : Char) : Bool := c == '/' || c == '\\' || c == '?' || c == '#'

/-- True for characters terminating a path (query or fragment start). -/
def isPathEnd (c : Char) : Bool := c == '?' || c == '#'

/-- Model of `new URL(s).pathname`, `none` meaning the constructor throws.
Restricted fragment of the WHATWG URL parser: the input is assumed free of
tabs, newlines and surrounding C0-control/space trimming; a special-scheme
URL is modelled only in its `scheme://host/path` form with a non-empty
well-formed host and a path needing no percent-encoding, backslash
normalisation or dot-segment removal; a non-special scheme is followed by an
opaque path taken verbatim up to the query or fragment. -/
def urlPathname (s : List Char) : Option (List Char) :=
  match takeScheme s with
  | none => none
  | some (sch, rest) =>
    if (sch.map Char.toLower) ∈ specialSchemes then
      match rest with
      | '/' :: '/' :: r =>
        let afterAuth := r.dropWhile (fun c => !(isAuthorityEnd c))
        match afterAuth with
        | '/' :: _ => some (afterAuth.takeWhile (fun c => !(isPathEnd c)))
        | _ => some [ '/' ]
      | _ => none
    else
      match rest with
      | '/' :: '/' :: r =>
        let afterAuth := r.dropWhile (fun c => !(c == '/' || c == '?' || c == '#'))
        match afterAuth with
        | '/' :: _ => some (afterAuth.takeWhile (fun c => !(isPathEnd c)))
        | _ => some []
      | _ => some (rest.takeWhile (fun c => !(isPathEnd c)))

/-- Embedding of `stripOrigin` from `log/index.ts`: `new URL(url).pathname.slice(1)`,
falling back to the input when the URL constructor throws. -/
def stripOrigin (url : List Char) : List Char :=
  match urlPathname url with
  | some p => jsSliceFrom p 1
  | none => url

/-- `takeWhile` keeps a list all of whose elements satisfy the predicate. -/
theorem takeWhile_eq_self_of_all {p : Char → Bool} :
    ∀ {l : List Char}, (∀ c ∈ l, p c = true) → l.takeWhile p = l := by
  intro l
  induction l with
  | nil => intro _; rfl
  | cons a t ih =>
    intro h
    simp only [List.takeWhile_cons]
    rw [h a (by simp), ih (fun c hc => h c (by simp [hc]))]
    simp

/-- `dropWhile` skips a block of satisfying elements and stops at the first
failing one. -/
theorem dropWhile_append_cons {p : Char → Bool} {b : Char} {t : List Char} :
    ∀ {a : List Char}, (∀ c ∈ a, p c = true) → p b = false →
      (a ++ b :: t).dropWhile p = b :: t := by
  intro a
  induction a with
  | nil => intro _ hb; simp [List.dropWhile, hb]
  | cons x xs ih =>
    intro h hb
    simp only [List.cons_append, List.dropWhile_cons]
    rw [h x (by simp), ih (fun c hc => h c (by simp [hc])) hb]
    simp

/-- A string with no colon has no `scheme:` and is not an absolute URL. -/
theorem takeScheme_eq_none {p : List Char} (hp : ':' ∉ p) : takeScheme p = none := by
  unfold takeScheme
  cases p with
  | nil => rfl
  | cons c t =>
    simp only
    split
    · split
      · next r heq =>
        exact absurd (List.drop_subset _ _ (by rw [heq]; simp)) hp
      · rfl
    · rfl

/-- Computation of `urlPathname` on a well-formed `http://host/path` URL
within the modelled fragment. -/
theorem urlPathname_http (host path : List Char)
    (h1 : ∀ c ∈ host, isAuthorityEnd c = false)
    (h2 : ∀ c ∈ path, isPathEnd c = false) :
    urlPathname (strL (r"http://") ++ host ++ '/' :: path) = some ('/' :: path) := by
  have hsch : takeScheme (strL (r"http://") ++ host ++ '/' :: path) =
      some (strL (r"http"), '/' :: '/' :: (host ++ '/' :: path)) := rfl
  have hdrop : (host ++ '/' :: path).dropWhile (fun c => !(isAuthorityEnd c)) = '/' :: path :=
    dropWhile_append_cons (by intro c hc; simp [h1 c hc]) (by decide)
  have htake : ('/' :: path).takeWhile (fun c => !(isPathEnd c)) = '/' :: path :=
    takeWhile_eq_self_of_all (by
      intro c hc
      rcases List.mem_cons.mp hc with h | h
      · subst h; decide
      · simp [h2 c h])
  unfold urlPathname
  rw [hsch]
  simp only
  rw [if_pos (show (strL (r"http")).map Char.toLower ∈ specialSchemes from by decide)]
  simp only [hdrop, htake]

/-- C9 counterexample: a Windows-style path is parsed by the URL constructor
(the drive letter is a valid one-letter scheme with an opaque path), so
`stripOrigin` does not return it unchanged: the drive prefix is stripped. -/
theorem claim_C9_counterexample :
    stripOrigin (strL (r"C:\app\src\main.ts")) = strL (r"app\src\main.ts") ∧
    stripOrigin (strL (r"C:\app\src\main.ts")) ≠ strL (r"C:\app\src\main.ts") := by
  decide

/-- C9 (amended): `stripOrigin` returns unchanged every input without a URL
scheme prefix — in particular every colon-free relative path — and on an
absolute `http://host/path` URL it strips exactly the scheme, host and
leading slash, leaving the path intact; but a Windows-style drive-letter path
parses as a URL with a one-letter scheme and loses its drive prefix. -/
theorem claim_C9_stripOrigin :
    (∀ p : List Char, ':' ∉ p → stripOrigin p = p) ∧
    (∀ host path : List Char,
      (∀ c ∈ host, isAuthorityEnd c = false) →
      (∀ c ∈ path, isPathEnd c = false) →
      stripOrigin (strL (r"http://") ++ host ++ '/' :: path) = path) := by
  constructor
  · intro p hp
    unfold stripOrigin urlPathname
    rw [takeScheme_eq_none hp]
  · intro host path h1 h2
    unfold stripOrigin
    rw [urlPathname_http host path h1 h2]
    rfl

/-- Witness for C9: a colon-free relative path is unchanged, and a concrete
`http` URL is stripped to its path. -/
theorem claim_C9_stripOrigin_witness :
    stripOrigin (strL (r"modules/app/src/App.vue")) = strL (r"modules/app/src/App.vue") ∧
    stripOrigin (strL (r"http://localhost/modules/app/src/App.vue")) = strL (r"modules/app/src/App.vue") :=
  ⟨claim_C9_stripOrigin.1 (strL (r"modules/app/src/App.vue")) (by decide),
   claim_C9_stripOrigin.2 (strL (r"localhost")) (strL (r"modules/app/src/App.vue"))
     (by decide) (by decide)⟩

/-! ## Stack frame parser (`parseCallSiteLine`, claims C2 and C8)

The parser is identical character for character in the two logger
implementations; it is embedded once, split into its four sequential phases
exactly as they appear in the source. -/

/-- A parsed but not yet source-mapped stack frame location
(`RawCallSite` in `log/index.ts`). -/
structure RawCallSite where
  url : List Char
  file : List Char
  line : Int
  column : Int
deriving DecidableEq, Repr

/-- Phase 1 of `parseCallSiteLine`: trim the line and strip a leading
`at ` call marker (`candidate.slice(3).trim()`). -/
def parseStage1 (line : List Char) : List Char :=
  let candidate := jsTrim line
  if jsStartsWith candidate (strL (r"at ")) then jsTrim (jsSliceFrom candidate 3)
  else candidate

/-- Phase 2 of `parseCallSiteLine`: when the candidate ends with `)` and
contains `(`, extract the substring between the last `(` and the trailing
`)`. -/
def parseStage2 (candidate : List Char) : List Char :=
  if jsEndsWithChar candidate ')' && jsIncludes candidate (strL (r"(")) then
    match lastIdx candidate '(' with
    | some openIdx => jsSliceDropLast candidate (openIdx + 1)
    | none => candidate
  else candidate

/-- Phase 3 of `parseCallSiteLine`: when the candidate contains `@`
(`candidate.indexOf('@') >= 0`), take everything after the FIRST `@`. -/
def parseStage3 (candidate : List Char) : List Char :=
  match firstIdx candidate '@' with
  | some atIdx => jsSliceFrom candidate (atIdx + 1)
  | none => candidate

/-- Phase 4 of `parseCallSiteLine`: locate the last and second-to-last
colons, split the candidate into url, line and column fields, and validate
the two numbers with `Number.isInteger`.  A `lastIndexOf` result of `-1` or
`0` fails (`<= 0` in the source). -/
def parseColons (candidate : List Char) : Option RawCallSite :=
  match lastIdx candidate ':' with
  | none => none
  | some lastColon =>
    if lastColon = 0 then none
    else
      match lastIdxLe candidate ':' (lastColon - 1) with
      | none => none
      | some secondLastColon =>
        if secondLastColon = 0 then none
        else
          let url := jsSliceMid candidate 0 secondLastColon
          let lineNumber := jsToNumberInt (jsSliceMid candidate (secondLastColon + 1) lastColon)
          let columnNumber := jsToNumberInt (jsSliceFrom candidate (lastColon + 1))
          match lineNumber, columnNumber with
          | some ln, some cn => some ⟨url, stripOrigin url, ln, cn⟩
          | _, _ => none

/-- Embedding of `parseCallSiteLine` from `log/index.ts` (and its identical
copy in the companion logger): the four phases in source order. -/
def parseCallSiteLine (line : List Char) : Option RawCallSite :=
  parseColons (parseStage3 (parseStage2 (parseStage1 line)))

/-! ### Lemmas about the string primitives -/

/-- `lastIndexOf` misses a character that does not occur. -/
theorem lastIdx_eq_none {s : List Char} {c : Char} (h : c ∉ s) : lastIdx s c = none := by
  induction s with
  | nil => rfl
  | cons a t ih =>
    have ha : ¬(a = c) := fun hac => h (hac ▸ List.mem_cons_self a t)
    simp [lastIdx, ih (fun hm => h (List.mem_cons_of_mem _ hm)), ha]

/-- Decomposition of `lastIndexOf` over an append. -/
theorem lastIdx_append {xs ys : List Char} {c : Char} :
    lastIdx (xs ++ ys) c =
      match lastIdx ys c with
      | some i => some (xs.length + i)
      | none => lastIdx xs c := by
  induction xs with
  | nil => cases h : lastIdx ys c <;> simp [h, lastIdx]
  | cons a t ih =>
    simp only [List.cons_append, lastIdx, List.append_eq]
    rw [ih]
    cases h : lastIdx ys c with
    | some i => simp only [List.length_cons, Option.some.injEq]; omega
    | none => rfl

/-- `indexOf` misses a character that does not occur. -/
theorem firstIdx_eq_none {s : List Char} {c : Char} (h : c ∉ s) : firstIdx s c = none := by
  induction s with
  | nil => rfl
  | cons a t ih =>
    have ha : ¬(a = c) := fun hac => h (hac ▸ List.mem_cons_self a t)
    simp [firstIdx, ih (fun hm => h (List.mem_cons_of_mem _ hm)), ha]

/-- `indexOf` finds the first occurrence. -/
theorem firstIdx_append {xs ys : List Char} {c : Char} (h : c ∉ xs) :
    firstIdx (xs ++ c :: ys) c = some xs.length := by
  induction xs with
  | nil => simp [firstIdx]
  | cons a t ih =>
    have ha : ¬(a = c) := fun hac => h (hac ▸ List.mem_cons_self a t)
    simp [firstIdx, ha, ih (fun hm => h (List.mem_cons_of_mem _ hm))]

/-- `dropWhile` is the identity when the head fails the predicate. -/
theorem dropWhile_eq_self_of_head {p : Char → Bool} {s : List Char}
    (h : ∀ ch, s.head? = some ch → p ch = false) : s.dropWhile p = s := by
  cases s with
  | nil => rfl
  | cons a t => simp [List.dropWhile_cons, h a rfl]

/-- `trim` is the identity when the first and last characters are not
whitespace. -/
theorem jsTrim_eq_self {s : List Char}
    (h1 : ∀ ch, s.head? = some ch → jsWs ch = false)
    (h2 : ∀ ch, s.getLast? = some ch → jsWs ch = false) : jsTrim s = s := by
  unfold jsTrim
  rw [dropWhile_eq_self_of_head h1]
  rw [dropWhile_eq_self_of_head
    (fun ch hch => h2 ch (by rwa [List.head?_reverse] at hch))]
  exact List.reverse_reverse s

/-- A single-character `includes` holds when the character occurs. -/
theorem jsIncludes_singleton_of_mem {s : List Char} {c : Char} (h : c ∈ s) :
    jsIncludes s [c] = true := by
  induction s with
  | nil => cases h
  | cons a t ih =>
    rcases List.mem_cons.mp h with h' | h'
    · subst h'
      simp [jsIncludes, List.isPrefixOf]
    · simp [jsIncludes, ih h']

/-- A decimal digit is not whitespace. -/
theorem digit_not_ws {x : Char} (h : x.isDigit = true) : jsWs x = false := by
  simp only [jsWs, Bool.or_eq_false_iff, beq_eq_false_iff_ne, ne_eq]
  refine ⟨⟨⟨⟨⟨?_, ?_⟩, ?_⟩, ?_⟩, ?_⟩, ?_⟩ <;>
    exact fun he => absurd (he ▸ h) (by decide)

/-- A decimal digit differs from any non-digit character. -/
theorem digit_ne {x : Char} (h : x.isDigit = true) (c : Char) (hc : c.isDigit = false) :
    x ≠ c := fun he => absurd (he ▸ h) (by simp [hc])

/-- On a non-empty all-digit string, `Number` followed by the integrality
check yields the decimal value. -/
theorem jsToNumberInt_digits {l : List Char} (hne : l ≠ [])
    (hd : ∀ x ∈ l, x.isDigit = true) :
    jsToNumberInt l = some (natOfDigits l) := by
  have htrim : jsTrim l = l := by
    refine jsTrim_eq_self (fun ch hch => ?_) (fun ch hch => ?_)
    · exact digit_not_ws (hd ch (by cases l with
        | nil => cases hch
        | cons a t => simp at hch; simp [hch]))
    · exact digit_not_ws (hd ch (List.mem_of_mem_getLast? (by simp [hch])))
  unfold jsToNumberInt
  rw [htrim]
  rw [if_neg hne]
  cases l with
  | nil => exact absurd rfl hne
  | cons a t =>
    have hda : a.isDigit = true := hd a (by simp)
    rw [if_neg (by simp; exact digit_ne hda '-' (by decide))]
    rw [if_neg (by simp; exact digit_ne hda '+' (by decide))]
    rw [digitsVal, if_pos ⟨hne, by simpa [List.all_eq_true] using hd⟩]
    rfl

/-- Core computation of the colon phase: on a candidate of the shape
`url ++ ':' ++ l ++ ':' ++ c` with a non-empty url and colon-free trailing
fields, the two colons located are exactly the field separators, the url and
the two number fields are recovered, and the result is governed by the
`Number`/`Number.isInteger` validation of the two fields. -/
theorem parseColons_shape (url l c' : List Char) (hu : url ≠ [])
    (hl : ':' ∉ l) (hc : ':' ∉ c') :
    parseColons (url ++ ':' :: (l ++ ':' :: c')) =
      match jsToNumberInt l, jsToNumberInt c' with
      | some ln, some cn => some ⟨url, stripOrigin url, ln, cn⟩
      | _, _ => none := by
  have hassoc : url ++ ':' :: (l ++ ':' :: c') = (url ++ ':' :: l) ++ ':' :: c' := by simp
  have hzero : lastIdx (':' :: c') ':' = some 0 := by
    simp [lastIdx, lastIdx_eq_none hc]
  have hzero2 : lastIdx (':' :: l) ':' = some 0 := by
    simp [lastIdx, lastIdx_eq_none hl]
  have hlast : lastIdx (url ++ ':' :: (l ++ ':' :: c')) ':' = some (url.length + 1 + l.length) := by
    rw [hassoc, lastIdx_append, hzero]
    simp only [List.length_append, List.length_cons, Option.some.injEq]
    omega
  have hmid : lastIdx (url ++ ':' :: l) ':' = some url.length := by
    rw [lastIdx_append, hzero2]
    simp
  have htake : (url ++ ':' :: (l ++ ':' :: c')).take (url.length + 1 + l.length) = url ++ ':' :: l := by
    rw [hassoc]
    exact List.take_left' (by simp; omega)
  have hsecond : lastIdxLe (url ++ ':' :: (l ++ ':' :: c')) ':' (url.length + 1 + l.length - 1) =
      some url.length := by
    unfold lastIdxLe
    have harith : url.length + 1 + l.length - 1 + 1 = url.length + 1 + l.length := by omega
    rw [harith, htake, hmid]
  have hurl : jsSliceMid (url ++ ':' :: (l ++ ':' :: c')) 0 url.length = url := by
    unfold jsSliceMid
    rw [List.take_left' rfl]
    rfl
  have hlf : jsSliceMid (url ++ ':' :: (l ++ ':' :: c')) (url.length + 1) (url.length + 1 + l.length) = l := by
    unfold jsSliceMid
    rw [htake]
    have : url ++ ':' :: l = (url ++ [':']) ++ l := by simp
    rw [this]
    exact List.drop_left' (by simp)
  have hcf : jsSliceFrom (url ++ ':' :: (l ++ ':' :: c')) (url.length + 1 + l.length + 1) = c' := by
    unfold jsSliceFrom
    have : url ++ ':' :: (l ++ ':' :: c') = ((url ++ ':' :: l) ++ [':']) ++ c' := by simp
    rw [this]
    exact List.drop_left' (by simp; omega)
  unfold parseColons
  rw [hlast]
  simp only
  rw [if_neg (by omega)]
  rw [hsecond]
  simp only
  rw [if_neg (by simpa [List.length_eq_zero] using hu)]
  rw [hurl, hlf, hcf]

/-- Phase 3 is the identity on a candidate without `@`. -/
theorem parseStage3_no_at {s : List Char} (h : '@' ∉ s) : parseStage3 s = s := by
  unfold parseStage3
  rw [firstIdx_eq_none h]

/-- Phase 3 cuts after the FIRST `@`: everything after the first `@` is kept
verbatim, even when it contains further `@` characters. -/
theorem parseStage3_at {fn rest : List Char} (h : '@' ∉ fn) :
    parseStage3 (fn ++ '@' :: rest) = rest := by
  unfold parseStage3
  rw [firstIdx_append h]
  unfold jsSliceFrom
  have he : fn ++ '@' :: rest = (fn ++ ['@']) ++ rest := by simp
  rw [he]
  exact List.drop_left' (by simp)

/-- Phase 2 is the identity on a candidate not ending in `)`. -/
theorem parseStage2_no_paren {s : List Char} (h : jsEndsWithChar s ')' = false) :
    parseStage2 s = s := by
  unfold parseStage2
  rw [h]
  rfl

/-- Phase 2 extracts the text between the last `(` and the trailing `)`. -/
theorem parseStage2_paren (fn X : List Char) (hX : '(' ∉ X) :
    parseStage2 ((fn ++ [' ', '(']) ++ (X ++ [')'])) = X := by
  have hre : (fn ++ [' ', '(']) ++ (X ++ [')']) = ((fn ++ [' ', '(']) ++ X) ++ [')'] := by simp
  have hend : jsEndsWithChar ((fn ++ [' ', '(']) ++ (X ++ [')'])) ')' = true := by
    unfold jsEndsWithChar
    rw [hre, List.getLast?_concat]
    rfl
  have hinc : jsIncludes ((fn ++ [' ', '(']) ++ (X ++ [')'])) (strL (r"(")) = true :=
    jsIncludes_singleton_of_mem (by simp)
  have hnomem : '(' ∉ X ++ [')'] := by
    intro hm
    rcases List.mem_append.mp hm with hm | hm
    · exact hX hm
    · simp at hm
  have hopen : lastIdx ((fn ++ [' ', '(']) ++ (X ++ [')'])) '(' = some (fn.length + 1) := by
    rw [lastIdx_append, lastIdx_eq_none hnomem, lastIdx_append]
    rw [show lastIdx [' ', '('] '(' = some 1 from rfl]
  unfold parseStage2
  rw [hend, hinc]
  simp only [Bool.and_self, if_true]
  rw [hopen]
  unfold jsSliceDropLast
  rw [hre, List.dropLast_concat]
  exact List.drop_left' (by simp)

/-- Phase 1 strips the `at ` marker and trims, recovering the remainder when
it has no surrounding whitespace. -/
theorem parseStage1_at {s : List Char} (hne : s ≠ [])
    (h1 : ∀ ch, s.head? = some ch → jsWs ch = false)
    (h2 : ∀ ch, s.getLast? = some ch → jsWs ch = false) :
    parseStage1 (strL (r"at ") ++ s) = s := by
  have htrim : jsTrim (strL (r"at ") ++ s) = strL (r"at ") ++ s := by
    refine jsTrim_eq_self (fun ch hch => ?_) (fun ch hch => ?_)
    · have hae : 'a' = ch := by simpa [strL] using hch
      subst hae
      decide
    · exact h2 ch (by rwa [List.getLast?_append_of_ne_nil _ hne] at hch)
  have hpre : jsStartsWith (strL (r"at ") ++ s) (strL (r"at ")) = true := by
    simp [jsStartsWith, strL, List.isPrefixOf]
  have hdrop : jsSliceFrom (strL (r"at ") ++ s) 3 = s := rfl
  unfold parseStage1
  simp only [htrim, hpre, if_true, hdrop]
  exact jsTrim_eq_self h1 h2

/-- Phase 1 only trims when the candidate does not start with the `at `
marker. -/
theorem parseStage1_no_at {s : List Char}
    (h1 : ∀ ch, s.head? = some ch → jsWs ch = false)
    (h2 : ∀ ch, s.getLast? = some ch → jsWs ch = false)
    (h3 : jsStartsWith s (strL (r"at ")) = false) :
    parseStage1 s = s := by
  unfold parseStage1
  simp only [jsTrim_eq_self h1 h2, h3]
  rfl

/-- Decidable form of "the first character, if any, is not whitespace". -/
def headNotWs (s : List Char) : Bool :=
  match s.head? with
  | some ch => !(jsWs ch)
  | none => true

/-- Unpack `headNotWs`. -/
theorem headNotWs_iff {s : List Char} (h : headNotWs s = true) :
    ∀ ch, s.head? = some ch → jsWs ch = false := by
  intro ch hch
  unfold headNotWs at h
  rw [hch] at h
  simpa using h

/-- Full computation of the parser on a bare `at <url>:<l>:<c>` line: the url
is recovered and the result is governed by the `Number`/`Number.isInteger`
validation of the two trailing fields. -/
theorem parse_bare_at_shape (url l c' : List Char)
    (hu : url ≠ []) (hh : headNotWs url = true) (hua : '@' ∉ url)
    (hlc : ':' ∉ l) (hla : '@' ∉ l)
    (hcf : ∀ x ∈ c', x ≠ ':' ∧ x ≠ '@' ∧ x ≠ ')' ∧ jsWs x = false) :
    parseCallSiteLine (strL (r"at ") ++ (url ++ ':' :: (l ++ ':' :: c'))) =
      match jsToNumberInt l, jsToNumberInt c' with
      | some ln, some cn => some ⟨url, stripOrigin url, ln, cn⟩
      | _, _ => none := by
  have hcc : ':' ∉ c' := fun hm => ((hcf ':' hm).1 rfl)
  have hca : '@' ∉ c' := fun hm => ((hcf '@' hm).2.1 rfl)
  have hXne : url ++ ':' :: (l ++ ':' :: c') ≠ [] := by simp
  have hXeq : url ++ ':' :: (l ++ ':' :: c') = (url ++ ':' :: l) ++ (':' :: c') := by simp
  have hXlast : (url ++ ':' :: (l ++ ':' :: c')).getLast? = (':' :: c').getLast? := by
    rw [hXeq]
    exact List.getLast?_append_of_ne_nil _ (by simp)
  have hlastchar : ∀ ch, (url ++ ':' :: (l ++ ':' :: c')).getLast? = some ch →
      jsWs ch = false ∧ ch ≠ ')' := by
    intro ch hch
    rw [hXlast] at hch
    have hm : ch ∈ ':' :: c' := List.mem_of_mem_getLast? (by simp [hch])
    rcases List.mem_cons.mp hm with hm | hm
    · subst hm; exact ⟨by decide, by decide⟩
    · exact ⟨(hcf ch hm).2.2.2, (hcf ch hm).2.2.1⟩
  have hhead : ∀ ch, (url ++ ':' :: (l ++ ':' :: c')).head? = some ch → jsWs ch = false := by
    intro ch hch
    cases url with
    | nil => exact absurd rfl hu
    | cons a t =>
      have hac : a = ch := by simpa using hch
      subst hac
      exact headNotWs_iff hh a rfl
  have hs1 : parseStage1 (strL (r"at ") ++ (url ++ ':' :: (l ++ ':' :: c'))) =
      url ++ ':' :: (l ++ ':' :: c') :=
    parseStage1_at hXne hhead (fun ch hch => (hlastchar ch hch).1)
  have hs2 : parseStage2 (url ++ ':' :: (l ++ ':' :: c')) = url ++ ':' :: (l ++ ':' :: c') := by
    apply parseStage2_no_paren
    unfold jsEndsWithChar
    cases hgl : (url ++ ':' :: (l ++ ':' :: c')).getLast? with
    | none => rfl
    | some d => simpa using (hlastchar d hgl).2
  have hs3 : parseStage3 (url ++ ':' :: (l ++ ':' :: c')) = url ++ ':' :: (l ++ ':' :: c') := by
    apply parseStage3_no_at
    intro hm
    rcases List.mem_append.mp hm with hm | hm
    · exact hua hm
    · rcases List.mem_cons.mp hm with hm | hm
      · exact absurd hm (by decide)
      · rcases List.mem_append.mp hm with hm | hm
        · exact hla hm
        · rcases List.mem_cons.mp hm with hm | hm
          · exact absurd hm (by decide)
          · exact hca hm
  unfold parseCallSiteLine
  rw [hs1, hs2, hs3]
  exact parseColons_shape url l c' hu hlc hcc

/-! ## Theorems for claim C8 -/

/-- C8 counterexample: the input line `at a:0:0` has trailing fields that are
valid integers but not at least 1; the parser does not fail — it returns a
call site with `line = 0` and `column = 0`, violating `line ≥ 1 ∧ column ≥ 1`. -/
theorem claim_C8_counterexample :
    parseCallSiteLine (strL (r"at a:0:0")) =
      some ⟨strL (r"a"), strL (r"a"), 0, 0⟩ ∧
    ¬((1 : Int) ≤ 0) := by
  exact ⟨by decide, by decide⟩

/-- C8 (amended): the parser validates that the two trailing fields are
integers in the `Number`/`Number.isInteger` sense — returning `none` when a
field is non-numeric — but does not validate positivity: `Number('0') = 0`
and `Number('') = 0` pass the integrality check, so the returned `line` and
`column` can be 0 or negative.  The general statement gives the exact field
semantics on a bare `at <url>:<line>:<col>` line. -/
theorem claim_C8_field_validation :
    (∀ url l c' : List Char,
      url ≠ [] → headNotWs url = true → '@' ∉ url →
      ':' ∉ l → '@' ∉ l →
      (∀ x ∈ c', x ≠ ':' ∧ x ≠ '@' ∧ x ≠ ')' ∧ jsWs x = false) →
      parseCallSiteLine (strL (r"at ") ++ (url ++ ':' :: (l ++ ':' :: c'))) =
        match jsToNumberInt l, jsToNumberInt c' with
        | some ln, some cn => some ⟨url, stripOrigin url, ln, cn⟩
        | _, _ => none) ∧
    parseCallSiteLine (strL (r"at a:x:1")) = none ∧
    parseCallSiteLine (strL (r"at a::")) =
      some ⟨strL (r"a"), strL (r"a"), 0, 0⟩ ∧
    parseCallSiteLine (strL (r"at a:-5:7")) =
      some ⟨strL (r"a"), strL (r"a"), -5, 7⟩ :=
  ⟨parse_bare_at_shape, by decide, by decide, by decide⟩

/-- Witness for C8 at concrete inputs. -/
theorem claim_C8_field_validation_witness :
    parseCallSiteLine (strL (r"at ") ++
        (strL (r"app.js") ++ ':' :: (strL (r"12") ++ ':' :: strL (r"34")))) =
      match jsToNumberInt (strL (r"12")), jsToNumberInt (strL (r"34")) with
      | some ln, some cn => some ⟨strL (r"app.js"), stripOrigin (strL (r"app.js")), ln, cn⟩
      | _, _ => none :=
  claim_C8_field_validation.1 (strL (r"app.js")) (strL (r"12")) (strL (r"34"))
    (by decide) (by decide) (by decide) (by decide) (by decide) (by decide)

/-- A digit string contains no occurrence of a given non-digit character. -/
theorem digits_not_mem {l : List Char} (hd : ∀ x ∈ l, x.isDigit = true)
    {c : Char} (hc : c.isDigit = false) : c ∉ l :=
  fun hm => absurd (hd c hm) (by simp [hc])

/-- Full computation of the parser on a `at <fn> (<url>:<l>:<c>)` line with
digit fields and a `(`-free, `@`-free url. -/
theorem parse_paren_shape (fn url l c' : List Char)
    (hfn : fn ≠ []) (hfh : headNotWs fn = true)
    (hu : url ≠ []) (hua : '@' ∉ url) (hup : '(' ∉ url)
    (hl : l ≠ []) (hld : ∀ x ∈ l, x.isDigit = true)
    (hc : c' ≠ []) (hcd : ∀ x ∈ c', x.isDigit = true) :
    parseCallSiteLine (strL (r"at ") ++
        ((fn ++ [' ', '(']) ++ ((url ++ ':' :: (l ++ ':' :: c')) ++ [')']))) =
      some ⟨url, stripOrigin url, (natOfDigits l : Int), (natOfDigits c' : Int)⟩ := by
  have hlc : ':' ∉ l := digits_not_mem hld (by decide)
  have hcc : ':' ∉ c' := digits_not_mem hcd (by decide)
  have hla : '@' ∉ l := digits_not_mem hld (by decide)
  have hca : '@' ∉ c' := digits_not_mem hcd (by decide)
  have hlp : '(' ∉ l := digits_not_mem hld (by decide)
  have hcp : '(' ∉ c' := digits_not_mem hcd (by decide)
  have hXp : '(' ∉ url ++ ':' :: (l ++ ':' :: c') := by
    intro hm
    rcases List.mem_append.mp hm with hm | hm
    · exact hup hm
    · rcases List.mem_cons.mp hm with hm | hm
      · exact absurd hm (by decide)
      · rcases List.mem_append.mp hm with hm | hm
        · exact hlp hm
        · rcases List.mem_cons.mp hm with hm | hm
          · exact absurd hm (by decide)
          · exact hcp hm
  have hXa : '@' ∉ url ++ ':' :: (l ++ ':' :: c') := by
    intro hm
    rcases List.mem_append.mp hm with hm | hm
    · exact hua hm
    · rcases List.mem_cons.mp hm with hm | hm
      · exact absurd hm (by decide)
      · rcases List.mem_append.mp hm with hm | hm
        · exact hla hm
        · rcases List.mem_cons.mp hm with hm | hm
          · exact absurd hm (by decide)
          · exact hca hm
  have hs1 : parseStage1 (strL (r"at ") ++
      ((fn ++ [' ', '(']) ++ ((url ++ ':' :: (l ++ ':' :: c')) ++ [')']))) =
      (fn ++ [' ', '(']) ++ ((url ++ ':' :: (l ++ ':' :: c')) ++ [')']) := by
    refine parseStage1_at (by simp) (fun ch hch => ?_) (fun ch hch => ?_)
    · cases fn with
      | nil => exact absurd rfl hfn
      | cons a t =>
        have hac : a = ch := by simpa using hch
        subst hac
        exact headNotWs_iff hfh a rfl
    · have hre : (fn ++ [' ', '(']) ++ ((url ++ ':' :: (l ++ ':' :: c')) ++ [')']) =
          ((fn ++ [' ', '(']) ++ (url ++ ':' :: (l ++ ':' :: c'))) ++ [')'] := by simp
      rw [hre, List.getLast?_concat] at hch
      have hpc : ch = ')' := by simpa using hch.symm
      subst hpc
      decide
  have hs2 : parseStage2 ((fn ++ [' ', '(']) ++ ((url ++ ':' :: (l ++ ':' :: c')) ++ [')'])) =
      url ++ ':' :: (l ++ ':' :: c') :=
    parseStage2_paren fn _ hXp
  have hs3 : parseStage3 (url ++ ':' :: (l ++ ':' :: c')) = url ++ ':' :: (l ++ ':' :: c') :=
    parseStage3_no_at hXa
  unfold parseCallSiteLine
  rw [hs1, hs2, hs3, parseColons_shape url l c' hu hlc hcc,
    jsToNumberInt_digits hl hld, jsToNumberInt_digits hc hcd]
  rfl

/-- Full computation of the parser on a `<fn>@<url>:<l>:<c>` line with digit
fields: the candidate is cut after the FIRST `@`, so the url is recovered
exactly — even when the url itself contains `@` — provided the function name
is `@`-free. -/
theorem parse_fn_at_shape (fn url l c' : List Char)
    (hfa : '@' ∉ fn) (hfh : headNotWs fn = true)
    (hnat : jsStartsWith (fn ++ '@' :: (url ++ ':' :: (l ++ ':' :: c')))
      (strL (r"at ")) = false)
    (hu : url ≠ [])
    (hl : l ≠ []) (hld : ∀ x ∈ l, x.isDigit = true)
    (hc : c' ≠ []) (hcd : ∀ x ∈ c', x.isDigit = true) :
    parseCallSiteLine (fn ++ '@' :: (url ++ ':' :: (l ++ ':' :: c'))) =
      some ⟨url, stripOrigin url, (natOfDigits l : Int), (natOfDigits c' : Int)⟩ := by
  have hlc : ':' ∉ l := digits_not_mem hld (by decide)
  have hcc : ':' ∉ c' := digits_not_mem hcd (by decide)
  have hXeqat : url ++ ':' :: (l ++ ':' :: c') = (url ++ ':' :: l) ++ (':' :: c') := by simp
  have hXlast : (url ++ ':' :: (l ++ ':' :: c')).getLast? = (':' :: c').getLast? := by
    rw [hXeqat]
    exact List.getLast?_append_of_ne_nil _ (by simp)
  have hslast : (fn ++ '@' :: (url ++ ':' :: (l ++ ':' :: c'))).getLast? =
      (':' :: c').getLast? := by
    rw [List.getLast?_append_of_ne_nil _ (by simp : ('@' :: (url ++ ':' :: (l ++ ':' :: c'))) ≠ [])]
    rw [show ('@' :: (url ++ ':' :: (l ++ ':' :: c'))) = ['@'] ++ (url ++ ':' :: (l ++ ':' :: c')) from rfl]
    rw [List.getLast?_append_of_ne_nil _ (by simp)]
    exact hXlast
  have hlastchar : ∀ ch, (fn ++ '@' :: (url ++ ':' :: (l ++ ':' :: c'))).getLast? = some ch →
      jsWs ch = false ∧ ch ≠ ')' := by
    intro ch hch
    rw [hslast] at hch
    have hm : ch ∈ ':' :: c' := List.mem_of_mem_getLast? (by simp [hch])
    rcases List.mem_cons.mp hm with hm | hm
    · subst hm; exact ⟨by decide, by decide⟩
    · exact ⟨digit_not_ws (hcd ch hm), digit_ne (hcd ch hm) ')' (by decide)⟩
  have hs1 : parseStage1 (fn ++ '@' :: (url ++ ':' :: (l ++ ':' :: c'))) =
      fn ++ '@' :: (url ++ ':' :: (l ++ ':' :: c')) := by
    refine parseStage1_no_at (fun ch hch => ?_) (fun ch hch => (hlastchar ch hch).1) hnat
    cases fn with
    | nil =>
      have hac : '@' = ch := by simpa using hch
      subst hac
      decide
    | cons a t =>
      have hac : a = ch := by simpa using hch
      subst hac
      exact headNotWs_iff hfh a rfl
  have hs2 : parseStage2 (fn ++ '@' :: (url ++ ':' :: (l ++ ':' :: c'))) =
      fn ++ '@' :: (url ++ ':' :: (l ++ ':' :: c')) := by
    apply parseStage2_no_paren
    unfold jsEndsWithChar
    cases hgl : (fn ++ '@' :: (url ++ ':' :: (l ++ ':' :: c'))).getLast? with
    | none => rfl
    | some d => simpa using (hlastchar d hgl).2
  have hs3 : parseStage3 (fn ++ '@' :: (url ++ ':' :: (l ++ ':' :: c'))) =
      url ++ ':' :: (l ++ ':' :: c') :=
    parseStage3_at hfa
  unfold parseCallSiteLine
  rw [hs1, hs2, hs3, parseColons_shape url l c' hu hlc hcc,
    jsToNumberInt_digits hl hld, jsToNumberInt_digits hc hcd]
  rfl

/-! ## Theorems for claim C2 -/

/-- C2 counterexample: on the bare line `at http://h/a@b.js:1:2`, whose url
contains an `@`, the parser cuts the candidate after the `@` and returns url
`b.js` instead of the url present in the input.  (The same truncation occurs
under the spec's "after the last `@`" wording, and the source code actually
cuts after the FIRST `@`.) -/
theorem claim_C2_counterexample :
    parseCallSiteLine (strL (r"at http://h/a@b.js:1:2")) =
      some ⟨strL (r"b.js"), strL (r"b.js"), 1, 2⟩ ∧
    strL (r"b.js") ≠ strL (r"http://h/a@b.js") :=
  ⟨by decide, by decide⟩

/-- C2 (amended): for the three stack-line shapes with decimal-digit line and
column fields, `parseCallSiteLine` recovers the exact url, line and column —
provided the url contains no `@` (and no `(`) in the two `at`-marker shapes;
in the `<fn>@<url>:<line>:<col>` shape the cut happens after the FIRST `@`,
so the url is recovered exactly, even when it contains `@` characters, as
long as the function name is `@`-free. -/
theorem claim_C2_parse_shapes :
    (∀ fn url l c' : List Char,
      fn ≠ [] → headNotWs fn = true →
      url ≠ [] → '@' ∉ url → '(' ∉ url →
      l ≠ [] → (∀ x ∈ l, x.isDigit = true) →
      c' ≠ [] → (∀ x ∈ c', x.isDigit = true) →
      parseCallSiteLine (strL (r"at ") ++
          ((fn ++ [' ', '(']) ++ ((url ++ ':' :: (l ++ ':' :: c')) ++ [')']))) =
        some ⟨url, stripOrigin url, (natOfDigits l : Int), (natOfDigits c' : Int)⟩) ∧
    (∀ fn url l c' : List Char,
      '@' ∉ fn → headNotWs fn = true →
      jsStartsWith (fn ++ '@' :: (url ++ ':' :: (l ++ ':' :: c'))) (strL (r"at ")) = false →
      url ≠ [] →
      l ≠ [] → (∀ x ∈ l, x.isDigit = true) →
      c' ≠ [] → (∀ x ∈ c', x.isDigit = true) →
      parseCallSiteLine (fn ++ '@' :: (url ++ ':' :: (l ++ ':' :: c'))) =
        some ⟨url, stripOrigin url, (natOfDigits l : Int), (natOfDigits c' : Int)⟩) ∧
    (∀ url l c' : List Char,
      url ≠ [] → headNotWs url = true → '@' ∉ url →
      l ≠ [] → (∀ x ∈ l, x.isDigit = true) →
      c' ≠ [] → (∀ x ∈ c', x.isDigit = true) →
      parseCallSiteLine (strL (r"at ") ++ (url ++ ':' :: (l ++ ':' :: c'))) =
        some ⟨url, stripOrigin url, (natOfDigits l : Int), (natOfDigits c' : Int)⟩) := by
  refine ⟨parse_paren_shape, parse_fn_at_shape, ?_⟩
  intro url l c' hu hh hua hl hld hc hcd
  have hbase := parse_bare_at_shape url l c' hu hh hua
    (digits_not_mem hld (by decide)) (digits_not_mem hld (by decide))
    (fun x hx => ⟨digit_ne (hcd x hx) ':' (by decide), digit_ne (hcd x hx) '@' (by decide),
      digit_ne (hcd x hx) ')' (by decide), digit_not_ws (hcd x hx)⟩)
  rw [hbase, jsToNumberInt_digits hl hld, jsToNumberInt_digits hc hcd]
  rfl

/-- Witness for C2: each of the three shapes at concrete inputs; in the
`fn@url` shape the url deliberately contains an `@`. -/
theorem claim_C2_parse_shapes_witness :
    parseCallSiteLine (strL (r"at ") ++
        ((strL (r"fire") ++ [' ', '(']) ++
          ((strL (r"app.js") ++ ':' :: (strL (r"7") ++ ':' :: strL (r"9"))) ++ [')']))) =
      some ⟨strL (r"app.js"), stripOrigin (strL (r"app.js")),
        (natOfDigits (strL (r"7")) : Int), (natOfDigits (strL (r"9")) : Int)⟩ ∧
    parseCallSiteLine (strL (r"fire") ++ '@' ::
        (strL (r"a@b.js") ++ ':' :: (strL (r"1") ++ ':' :: strL (r"2")))) =
      some ⟨strL (r"a@b.js"), stripOrigin (strL (r"a@b.js")),
        (natOfDigits (strL (r"1")) : Int), (natOfDigits (strL (r"2")) : Int)⟩ ∧
    parseCallSiteLine (strL (r"at ") ++
        (strL (r"main.ts") ++ ':' :: (strL (r"3") ++ ':' :: strL (r"4")))) =
      some ⟨strL (r"main.ts"), stripOrigin (strL (r"main.ts")),
        (natOfDigits (strL (r"3")) : Int), (natOfDigits (strL (r"4")) : Int)⟩ :=
  ⟨claim_C2_parse_shapes.1 (strL (r"fire")) (strL (r"app.js")) (strL (r"7")) (strL (r"9"))
      (by decide) (by decide) (by decide) (by decide) (by decide) (by decide) (by decide)
      (by decide) (by decide),
   claim_C2_parse_shapes.2.1 (strL (r"fire")) (strL (r"a@b.js")) (strL (r"1")) (strL (r"2"))
      (by decide) (by decide) (by decide) (by decide) (by decide) (by decide) (by decide)
      (by decide),
   claim_C2_parse_shapes.2.2 (strL (r"main.ts")) (strL (r"3")) (strL (r"4"))
      (by decide) (by decide) (by decide) (by decide) (by decide) (by decide) (by decide)⟩

/-! ## Source map resolver and cache (claims C4, C7) -/

/-- The original position returned by `SourceMapConsumer.originalPositionFor`:
both `source` and `line` are nullable in the `source-map-js` result. -/
structure OrigPos where
  source : Option (List Char)
  line : Option Int

/-- A parsed source-map consumer, abstracted as its `originalPositionFor`
query function from a (line, column) pair. -/
def ConsumerM : Type := Int → Int → OrigPos

/-- Outcome of the fetch-and-scan step of `getSourceMap` for a URL that is
not yet cached: the fetch (or the decode/`JSON.parse`/constructor inside the
`try`) throws; the fetched text has no inline `sourceMappingURL` comment; or
a consumer is produced from the embedded payload. -/
inductive FetchOutcome where
  | throws
  | noMap
  | map (c : ConsumerM)

/-- The process-wide `sourceMapCache` (`Map<string, SourceMapConsumer | null>`)
as an association list; `none` in the value position is the cached `null`
("known absent") marker. -/
def SourceMapCache : Type := List (List Char × Option ConsumerM)

/-- `Map.prototype.get` (`undefined` modelled as the outer `none`). -/
def cacheGet : SourceMapCache → List Char → Option (Option ConsumerM)
  | [], _ => none
  | (k, v) :: t, u => if k = u then some v else cacheGet t u

/-- `Map.prototype.set` (insert or overwrite). -/
def cacheSet : SourceMapCache → List Char → Option ConsumerM → SourceMapCache
  | [], u, v => [(u, v)]
  | (k, w) :: t, u, v => if k = u then (u, v) :: t else (k, w) :: cacheSet t u v

/-- One completed execution of `getSourceMap(url)` from `log/index.ts`, the
fetch-and-scan outcome supplied as an oracle.  Returns the updated cache, the
returned consumer-or-null, and whether `fetch` was invoked: a cached entry
(consumer or absent marker) is returned without fetching; otherwise the
outcome is cached — `null` on a missing map and on any exception — and
returned. -/
def getSourceMap (cache : SourceMapCache) (url : List Char) (f : FetchOutcome) :
    SourceMapCache × Option ConsumerM × Bool :=
  match cacheGet cache url with
  | some cached => (cache, cached, false)
  | none =>
    match f with
    | .throws => (cacheSet cache url none, none, true)
    | .noMap => (cacheSet cache url none, none, true)
    | .map c => (cacheSet cache url (some c), some c, true)

/-- A sequence of completed `getSourceMap` calls, returning the final cache
and the per-call "did fetch" flags. -/
def runGetSourceMaps (cache : SourceMapCache) :
    List (List Char × FetchOutcome) → SourceMapCache × List Bool
  | [] => (cache, [])
  | (u, f) :: rest =>
    let st := getSourceMap cache u f
    let tail := runGetSourceMaps st.1 rest
    (tail.1, st.2.2 :: tail.2)

/-- `cacheSet` stores the value at its key. -/
theorem cacheGet_set_self (m : SourceMapCache) (u : List Char) (v : Option ConsumerM) :
    cacheGet (cacheSet m u v) u = some v := by
  induction m with
  | nil => simp [cacheSet, cacheGet]
  | cons p t ih =>
    obtain ⟨k, w⟩ := p
    by_cases hk : k = u
    · simp [cacheSet, hk, cacheGet]
    · simp [cacheSet, hk, cacheGet, ih]

/-- `cacheSet` leaves other keys untouched. -/
theorem cacheGet_set_ne (m : SourceMapCache) {u' u : List Char} (v : Option ConsumerM)
    (h : u' ≠ u) : cacheGet (cacheSet m u' v) u = cacheGet m u := by
  induction m with
  | nil => simp [cacheSet, cacheGet, h]
  | cons p t ih =>
    obtain ⟨k, w⟩ := p
    by_cases hk : k = u'
    · subst hk
      simp [cacheSet, cacheGet, h]
    · by_cases hku : k = u
      · subst hku
        simp [cacheSet, cacheGet, hk]
      · simp [cacheSet, hk, cacheGet, hku, ih]

/-- A completed `getSourceMap` call never removes an existing cache entry. -/
theorem getSourceMap_preserves {cache : SourceMapCache} {u : List Char}
    {v : Option ConsumerM} (h : cacheGet cache u = some v)
    (u' : List Char) (f : FetchOutcome) :
    cacheGet (getSourceMap cache u' f).1 u = some v := by
  unfold getSourceMap
  cases hc : cacheGet cache u' with
  | some cached => exact h
  | none =>
    have hne : u' ≠ u := fun he => by rw [he, h] at hc; cases hc
    cases f <;> simp [cacheGet_set_ne _ _ hne, h]

/-- While a URL is cached, no later call in a run fetches it again. -/
theorem no_refetch_aux {u : List Char} {v : Option ConsumerM} :
    ∀ (reqs : List (List Char × FetchOutcome)) (cache : SourceMapCache),
      cacheGet cache u = some v → ∀ i,
        (runGetSourceMaps cache reqs).2.getD i false = true →
        (reqs.getD i (u, FetchOutcome.throws)).1 ≠ u := by
  intro reqs
  induction reqs with
  | nil =>
    intro cache _ i hflag
    simp [runGetSourceMaps] at hflag
  | cons r rest ih =>
    intro cache hcached i hflag
    obtain ⟨u', f⟩ := r
    cases i with
    | zero =>
      intro he
      simp only [List.getD_cons_zero] at he
      subst he
      unfold runGetSourceMaps getSourceMap at hflag
      rw [hcached] at hflag
      simp at hflag
    | succ j =>
      have hpres : cacheGet (getSourceMap cache u' f).1 u = some v :=
        getSourceMap_preserves hcached u' f
      have := ih (getSourceMap cache u' f).1 hpres j
      simp only [runGetSourceMaps, List.getD_cons_succ] at hflag ⊢
      exact this hflag

/-- C7: each completed `getSourceMap` call leaves the cache holding exactly
the value it returned for that URL; a second call for the same URL returns the
cached value, leaves the cache unchanged and does not fetch; and in any later
sequence of calls, every call that actually fetches is for a different URL —
so at most one fetch-and-parse happens per URL. -/
theorem claim_C7_cache_single_fetch :
    (∀ (cache : SourceMapCache) (url : List Char) (f : FetchOutcome),
      cacheGet (getSourceMap cache url f).1 url = some (getSourceMap cache url f).2.1) ∧
    (∀ (cache : SourceMapCache) (url : List Char) (f f' : FetchOutcome),
      getSourceMap (getSourceMap cache url f).1 url f' =
        ((getSourceMap cache url f).1, (getSourceMap cache url f).2.1, false)) ∧
    (∀ (cache : SourceMapCache) (url : List Char) (f : FetchOutcome)
      (reqs : List (List Char × FetchOutcome)) (i : Nat),
      (runGetSourceMaps (getSourceMap cache url f).1 reqs).2.getD i false = true →
      (reqs.getD i (url, FetchOutcome.throws)).1 ≠ url) := by
  have hone : ∀ (cache : SourceMapCache) (url : List Char) (f : FetchOutcome),
      cacheGet (getSourceMap cache url f).1 url = some (getSourceMap cache url f).2.1 := by
    intro cache url f
    unfold getSourceMap
    cases hc : cacheGet cache url with
    | some cached => simpa using hc
    | none => cases f <;> simp [cacheGet_set_self]
  refine ⟨hone, fun cache url f f' => ?_, fun cache url f reqs i => ?_⟩
  · set st := getSourceMap cache url f with hst
    have h1 : cacheGet st.1 url = some st.2.1 := hone cache url f
    unfold getSourceMap
    rw [h1]
  · exact no_refetch_aux reqs _ (hone cache url f) i

/-- Witness for C7: after a first (fetching) resolution of `a.js`, a traced
second run whose only fetching call is for `b.js` indeed concerns a
different URL. -/
theorem claim_C7_cache_single_fetch_witness :
    ([((strL (r"b.js")), FetchOutcome.noMap)].getD 0
      (strL (r"a.js"), FetchOutcome.throws)).1 ≠ strL (r"a.js") :=
  claim_C7_cache_single_fetch.2.2 [] (strL (r"a.js")) FetchOutcome.noMap
    [((strL (r"b.js")), FetchOutcome.noMap)] 0 (by rfl)

/-- A `LogOptions` location `{file, line}` as passed to the transport. -/
structure LocationM where
  file : List Char
  line : Int
deriving DecidableEq, Repr

/-- Embedding of `resolveLocation` from `log/index.ts`: query the consumer
(when one is available) for the original position of the raw line and column;
when the query yields a defined original line, return it together with the
origin-stripped original source path (JavaScript truthiness: a null or empty
`pos.source` falls back to `raw.file`); in every other case return the raw
file and line. -/
def resolveLocation (raw : RawCallSite) (consumer : Option ConsumerM) : LocationM :=
  match consumer with
  | some c =>
    let pos := c raw.line raw.column
    match pos.line with
    | some l =>
      { file :=
          match pos.source with
          | some src => if src = [] then raw.file else stripOrigin src
          | none => raw.file,
        line := l }
    | none => { file := raw.file, line := raw.line }
  | none => { file := raw.file, line := raw.line }

/-! ## Theorems for claim C4 -/

/-- C4: `resolveLocation` is total — every fetch and source-map outcome
produces a location, never an error.  With no consumer it returns exactly
`{raw.file, raw.line}`; likewise when the consumer's query yields no original
line; when the fetch throws on an uncached URL the resulting consumer is
absent and the fallback is again `{raw.file, raw.line}`; and when the query
yields a defined line, the result is that line together with the
origin-stripped original source path, or `raw.file` when no source path is
given. -/
theorem claim_C4_resolveLocation :
    (∀ raw : RawCallSite, resolveLocation raw none = ⟨raw.file, raw.line⟩) ∧
    (∀ (raw : RawCallSite) (c : ConsumerM),
      (c raw.line raw.column).line = none →
      resolveLocation raw (some c) = ⟨raw.file, raw.line⟩) ∧
    (∀ (raw : RawCallSite) (cache : SourceMapCache),
      cacheGet cache raw.url = none →
      resolveLocation raw (getSourceMap cache raw.url FetchOutcome.throws).2.1 =
        ⟨raw.file, raw.line⟩) ∧
    (∀ (raw : RawCallSite) (c : ConsumerM) (l : Int) (src : List Char),
      c raw.line raw.column = ⟨some src, some l⟩ → src ≠ [] →
      resolveLocation raw (some c) = ⟨stripOrigin src, l⟩) ∧
    (∀ (raw : RawCallSite) (c : ConsumerM) (l : Int),
      c raw.line raw.column = ⟨none, some l⟩ →
      resolveLocation raw (some c) = ⟨raw.file, l⟩) := by
  refine ⟨fun raw => rfl, fun raw c h => ?_, fun raw cache h => ?_,
    fun raw c l src h hsrc => ?_, fun raw c l h => ?_⟩
  · simp [resolveLocation, h]
  · unfold getSourceMap
    rw [h]
    rfl
  · simp [resolveLocation, h, hsrc]
  · simp [resolveLocation, h]

/-- Witness for C4 at concrete inputs: a consumer whose query yields no line,
the throwing-fetch fallback, a consumer with a source path, and a consumer
with a defined line but no source path. -/
theorem claim_C4_resolveLocation_witness :
    resolveLocation ⟨strL (r"b.js"), strL (r"b.js"), 7, 3⟩
        (some (fun _ _ => ⟨none, none⟩)) = ⟨strL (r"b.js"), 7⟩ ∧
    resolveLocation ⟨strL (r"b.js"), strL (r"b.js"), 7, 3⟩
        (getSourceMap [] (strL (r"b.js")) FetchOutcome.throws).2.1 = ⟨strL (r"b.js"), 7⟩ ∧
    resolveLocation ⟨strL (r"b.js"), strL (r"b.js"), 7, 3⟩
        (some (fun _ _ => ⟨some (strL (r"src/x.ts")), some 42⟩)) =
      ⟨stripOrigin (strL (r"src/x.ts")), 42⟩ ∧
    resolveLocation ⟨strL (r"b.js"), strL (r"b.js"), 7, 3⟩
        (some (fun _ _ => ⟨none, some 42⟩)) = ⟨strL (r"b.js"), 42⟩ :=
  ⟨claim_C4_resolveLocation.2.1 ⟨strL (r"b.js"), strL (r"b.js"), 7, 3⟩ _ rfl,
   claim_C4_resolveLocation.2.2.1 ⟨strL (r"b.js"), strL (r"b.js"), 7, 3⟩ [] rfl,
   claim_C4_resolveLocation.2.2.2.1 ⟨strL (r"b.js"), strL (r"b.js"), 7, 3⟩ _ 42
     (strL (r"src/x.ts")) rfl (by decide),
   claim_C4_resolveLocation.2.2.2.2 ⟨strL (r"b.js"), strL (r"b.js"), 7, 3⟩ _ 42 rfl⟩

/-! ## Transport forwarder: `TauriAppender` (claims C3, C10, C1) -/

/-- Unit Separator (U+001F), the delimiter between logger name and message. -/
def SEP : Char := '\x1F'

/-- The five `@tauri-apps/plugin-log` sink functions. -/
inductive SinkFn where
  | trace
  | debug
  | info
  | warn
  | error
deriving DecidableEq, Repr

/-- The own property names of `Object.prototype` in a standard JavaScript
runtime (the Annex B accessor properties included).  The `levelFunctions`
record is a plain object literal, so a computed member read with one of
these keys yields the truthy inherited value instead of `undefined`. -/
def objectProtoKeys : List (List Char) :=
  [strL (r"constructor"), strL (r"hasOwnProperty"), strL (r"isPrototypeOf"),
   strL (r"propertyIsEnumerable"), strL (r"toLocaleString"), strL (r"toString"),
   strL (r"valueOf"), strL (r"__proto__"), strL (r"__defineGetter__"),
   strL (r"__defineSetter__"), strL (r"__lookupGetter__"), strL (r"__lookupSetter__")]

/-- Result of the computed property read `levelFunctions[levelStr]`: one of
the six own entries, a value inherited from `Object.prototype`, or the
JavaScript value `undefined` (the `missing` case). -/
inductive LookupResult where
  | sink (fn : SinkFn)
  | inheritedProp (name : List Char)
  | missing
deriving DecidableEq, Repr

/-- Embedding of the `levelFunctions` record lookup from `TauriAppender.ts`:
the six recognised level strings map to their sinks; any other key is looked
up along the prototype chain, so the property names of `Object.prototype`
yield the inherited value and only the remaining keys yield `undefined`. -/
def levelFunctions (s : List Char) : LookupResult :=
  if s = strL (r"TRACE") then .sink .trace
  else if s = strL (r"DEBUG") then .sink .debug
  else if s = strL (r"INFO") then .sink .info
  else if s = strL (r"WARN") then .sink .warn
  else if s = strL (r"ERROR") then .sink .error
  else if s = strL (r"FATAL") then .sink .error
  else if s ∈ objectProtoKeys then .inheritedProp s
  else .missing

/-- `event.level`: a string, or (in a malformed event) not a string at all. -/
inductive JsLevel where
  | str (s : List Char)
  | nonString
deriving DecidableEq, Repr

/-- A payload element: a lazy function — evaluated inside a `try`, `none`
modelling a throw — or any other value abstracted by its `formatAny`
rendering from the `AbstractBaseAppender` base class. -/
inductive PayloadItem where
  | func (result : Option (List Char))
  | plain (formatted : List Char)
deriving DecidableEq, Repr

/-- Embedding of `resolvePayloadItem`: lazy functions are evaluated with a
`[lazy eval error]` fallback; other values go through `formatAny`. -/
def resolvePayloadItem : PayloadItem → List Char
  | .func (some s) => s
  | .func none => strL (r"[lazy eval error]")
  | .plain f => f

/-- `event.payload`: a top-level lazy function or an array of elements. -/
inductive PayloadM where
  | lazyFn (result : Option (List Char))
  | items (l : List PayloadItem)
deriving DecidableEq, Repr

/-- The call-site attached to an event by the logging framework. -/
structure CallSiteM where
  file : List Char
  line : Int
deriving DecidableEq, Repr

/-- The `ILogEvent` fields used by `TauriAppender.handle`. -/
structure ILogEvent where
  level : JsLevel
  loggerName : List Char
  payload : PayloadM
  callSite : Option CallSiteM
deriving DecidableEq, Repr

/-- The message string built by `handle` from the payload. -/
def handleMessage : PayloadM → List Char
  | .lazyFn (some s) => s
  | .lazyFn none => strL (r"[lazy eval error]")
  | .items l => joinSpace (l.map resolvePayloadItem)

/-- The `\x1F`-protocol text composed by `handle`. -/
def handleText (ev : ILogEvent) : List Char :=
  ev.loggerName ++ SEP :: handleMessage ev.payload

/-- The `LogOptions` built by `handle` from the event's call site. -/
def handleOptions (ev : ILogEvent) : Option LocationM :=
  ev.callSite.map (fun cs => ⟨stripOrigin cs.file, cs.line⟩)

/-- The function `handle` will call: a sink, or a truthy value inherited
from `Object.prototype`.  The `?? info` fallback replaces only an
`undefined` lookup result. -/
inductive LogFn where
  | sink (fn : SinkFn)
  | inheritedProp (name : List Char)
deriving DecidableEq, Repr

/-- The function selected by `handle`:
`levelFunctions[typeof level === 'string' ? level : 'INFO'] ?? info`.
An inherited `Object.prototype` value is truthy, so it defeats the `?? info`
fallback; only an `undefined` lookup falls back to the INFO sink. -/
def routeLevel (lvl : JsLevel) : LogFn :=
  match levelFunctions (match lvl with | .str s => s | .nonString => strL (r"INFO")) with
  | .sink fn => .sink fn
  | .inheritedProp name => .inheritedProp name
  | .missing => .sink .info

/-- Embedding of `TauriAppender.handle`: the per-instance state is the
`disabled` latch, `willHandle` abstracts the base-class filter, and
`sinkFails` is the outcome of the awaited `logFn(text, options)` call.
Returns the new `disabled` state and the invocation (called function, text,
options), `none` when no call was attempted.  When `routeLevel` selects an
inherited `Object.prototype` value instead of a sink, the call record names
that value; `sinkFails = true` then models the call throwing inside the
`try` (which necessarily happens for non-callable inherited values such as
`__proto__`), latching the instance exactly as a failed sink delivery
would. -/
def TauriHandle (disabled : Bool) (willHandle : Bool) (ev : ILogEvent)
    (sinkFails : Bool) : Bool × Option (LogFn × List Char × Option LocationM) :=
  if disabled || !willHandle then (disabled, none)
  else
    let call := (routeLevel ev.level, handleText ev, handleOptions ev)
    if sinkFails then (true, some call) else (disabled, some call)

/-- A sequence of `handle` calls on the same instance, returning the final
`disabled` state and the per-call invocations. -/
def runHandles (disabled : Bool) :
    List (Bool × ILogEvent × Bool) →
      Bool × List (Option (LogFn × List Char × Option LocationM))
  | [] => (disabled, [])
  | (wh, ev, sf) :: rest =>
    let st := TauriHandle disabled wh ev sf
    let tail := runHandles st.1 rest
    (tail.1, st.2 :: tail.2)

/-- A disabled appender never invokes the sink and stays disabled. -/
theorem runHandles_disabled :
    ∀ rest, runHandles true rest = (true, List.replicate rest.length none) := by
  intro rest
  induction rest with
  | nil => rfl
  | cons r t ih =>
    obtain ⟨wh, ev, sf⟩ := r
    simp only [runHandles, TauriHandle, Bool.true_or, if_true, ih]
    rfl

/-! ## Theorems for claim C3 -/

/-- C3: on a disabled instance, `handle` returns without invoking the sink
and the `disabled` flag stays `true` (so the flag only ever moves from
`false` to `true`); when a delivery attempt fails, the instance latches
`disabled = true`; and after such a failure every subsequent `handle` call on
the instance — any sequence, any events — invokes no sink at all and leaves
the latch set. -/
theorem claim_C3_transport_latch :
    (∀ (wh : Bool) (ev : ILogEvent) (sf : Bool),
      TauriHandle true wh ev sf = (true, none)) ∧
    (∀ (d wh : Bool) (ev : ILogEvent) (sf : Bool),
      (TauriHandle d wh ev sf).2 ≠ none → sf = true →
      (TauriHandle d wh ev sf).1 = true) ∧
    (∀ (d wh : Bool) (ev : ILogEvent) (sf : Bool)
      (rest : List (Bool × ILogEvent × Bool)),
      (TauriHandle d wh ev sf).2 ≠ none → sf = true →
      runHandles (TauriHandle d wh ev sf).1 rest =
        (true, List.replicate rest.length none)) := by
  have hlatch : ∀ (d wh : Bool) (ev : ILogEvent) (sf : Bool),
      (TauriHandle d wh ev sf).2 ≠ none → sf = true →
      (TauriHandle d wh ev sf).1 = true := by
    intro d wh ev sf hcall hsf
    subst hsf
    unfold TauriHandle at hcall ⊢
    by_cases hcond : (d || !wh) = true
    · rw [if_pos hcond] at hcall
      exact absurd rfl hcall
    · rw [if_neg hcond]
      simp [hcond]
  refine ⟨fun wh ev sf => by simp [TauriHandle], hlatch,
    fun d wh ev sf rest hcall hsf => ?_⟩
  rw [hlatch d wh ev sf hcall hsf]
  exact runHandles_disabled rest

/-- Witness for C3: a concrete failing first delivery on a fresh instance,
followed by one more `handle` call that is silently skipped. -/
theorem claim_C3_transport_latch_witness :
    runHandles
        (TauriHandle false true
          ⟨JsLevel.str (strL (r"INFO")), strL (r"Test"),
            PayloadM.items [PayloadItem.plain (strL (r"hello world"))], none⟩ true).1
        [(true,
          ⟨JsLevel.str (strL (r"INFO")), strL (r"Test"),
            PayloadM.items [PayloadItem.plain (strL (r"hello world"))], none⟩, false)] =
      (true, List.replicate 1 none) :=
  claim_C3_transport_latch.2.2 false true
    ⟨JsLevel.str (strL (r"INFO")), strL (r"Test"),
      PayloadM.items [PayloadItem.plain (strL (r"hello world"))], none⟩ true
    [(true,
      ⟨JsLevel.str (strL (r"INFO")), strL (r"Test"),
        PayloadM.items [PayloadItem.plain (strL (r"hello world"))], none⟩, false)]
    (by decide) rfl

/-! ## Theorems for claim C10 -/

/-- C10 counterexample: the level string `toString` is not one of the six
recognised levels, yet the handled event is NOT routed to the INFO sink —
the object lookup finds the truthy `Object.prototype.toString` along the
prototype chain, so the `?? info` fallback never fires and the call is
dispatched to the inherited value. -/
theorem claim_C10_counterexample :
    (TauriHandle false true
        ⟨JsLevel.str (strL (r"toString")), strL (r"Test"),
          PayloadM.items [PayloadItem.plain (strL (r"hi"))], none⟩ false).2 =
      some (LogFn.inheritedProp (strL (r"toString")),
        handleText ⟨JsLevel.str (strL (r"toString")), strL (r"Test"),
          PayloadM.items [PayloadItem.plain (strL (r"hi"))], none⟩,
        handleOptions ⟨JsLevel.str (strL (r"toString")), strL (r"Test"),
          PayloadM.items [PayloadItem.plain (strL (r"hi"))], none⟩) ∧
    LogFn.inheritedProp (strL (r"toString")) ≠ LogFn.sink SinkFn.info := by
  exact ⟨by decide, by decide⟩

/-- C10 (amended): an enabled, handled event whose level is not a string, or
whose level string is neither one of the six recognised levels nor a
property name inherited from `Object.prototype`, is routed to the INFO sink
with the composed text and options; but for a level string naming an
inherited `Object.prototype` property the lookup yields the truthy inherited
value, `?? info` does not fire, and the event is dispatched to that
inherited value rather than to any sink (for a non-callable or
this-sensitive inherited value the call then throws inside the `try` and
latches `disabled`). -/
theorem claim_C10_unknown_level_to_info :
    (∀ (wh : Bool) (ev : ILogEvent) (sf : Bool),
      wh = true →
      (match ev.level with
       | JsLevel.str s =>
          (s ≠ strL (r"TRACE") ∧ s ≠ strL (r"DEBUG") ∧ s ≠ strL (r"INFO") ∧
           s ≠ strL (r"WARN") ∧ s ≠ strL (r"ERROR") ∧ s ≠ strL (r"FATAL")) ∧
          s ∉ objectProtoKeys
       | JsLevel.nonString => True) →
      (TauriHandle false wh ev sf).2 =
        some (LogFn.sink SinkFn.info, handleText ev, handleOptions ev)) ∧
    (∀ (wh : Bool) (ev : ILogEvent) (sf : Bool) (s : List Char),
      wh = true → ev.level = JsLevel.str s →
      (s ≠ strL (r"TRACE") ∧ s ≠ strL (r"DEBUG") ∧ s ≠ strL (r"INFO") ∧
       s ≠ strL (r"WARN") ∧ s ≠ strL (r"ERROR") ∧ s ≠ strL (r"FATAL")) →
      s ∈ objectProtoKeys →
      (TauriHandle false wh ev sf).2 =
        some (LogFn.inheritedProp s, handleText ev, handleOptions ev)) := by
  constructor
  · intro wh ev sf hw hlvl
    subst hw
    have hroute : routeLevel ev.level = LogFn.sink SinkFn.info := by
      cases hl : ev.level with
      | nonString => rfl
      | str s =>
        rw [hl] at hlvl
        obtain ⟨⟨h1, h2, h3, h4, h5, h6⟩, hp⟩ := hlvl
        simp [routeLevel, levelFunctions, h1, h2, h3, h4, h5, h6, hp]
    unfold TauriHandle
    cases sf <;> simp [hroute]
  · intro wh ev sf s hw hl hsix hp
    subst hw
    have hroute : routeLevel ev.level = LogFn.inheritedProp s := by
      rw [hl]
      obtain ⟨h1, h2, h3, h4, h5, h6⟩ := hsix
      simp [routeLevel, levelFunctions, h1, h2, h3, h4, h5, h6, hp]
    unfold TauriHandle
    cases sf <;> simp [hroute]

/-- Witness for C10: a concrete event with the unrecognised,
non-prototype-key level string `VERBOSE` is delivered through the INFO sink,
and a concrete event with the inherited-property level string `valueOf` is
dispatched to the inherited value instead. -/
theorem claim_C10_unknown_level_to_info_witness :
    (TauriHandle false true
        ⟨JsLevel.str (strL (r"VERBOSE")), strL (r"Test"),
          PayloadM.items [PayloadItem.plain (strL (r"hi"))], none⟩ false).2 =
      some (LogFn.sink SinkFn.info,
        handleText ⟨JsLevel.str (strL (r"VERBOSE")), strL (r"Test"),
          PayloadM.items [PayloadItem.plain (strL (r"hi"))], none⟩,
        handleOptions ⟨JsLevel.str (strL (r"VERBOSE")), strL (r"Test"),
          PayloadM.items [PayloadItem.plain (strL (r"hi"))], none⟩) ∧
    (TauriHandle false true
        ⟨JsLevel.str (strL (r"valueOf")), strL (r"Test"),
          PayloadM.items [PayloadItem.plain (strL (r"hi"))], none⟩ false).2 =
      some (LogFn.inheritedProp (strL (r"valueOf")),
        handleText ⟨JsLevel.str (strL (r"valueOf")), strL (r"Test"),
          PayloadM.items [PayloadItem.plain (strL (r"hi"))], none⟩,
        handleOptions ⟨JsLevel.str (strL (r"valueOf")), strL (r"Test"),
          PayloadM.items [PayloadItem.plain (strL (r"hi"))], none⟩) :=
  ⟨claim_C10_unknown_level_to_info.1 true
      ⟨JsLevel.str (strL (r"VERBOSE")), strL (r"Test"),
        PayloadM.items [PayloadItem.plain (strL (r"hi"))], none⟩ false rfl (by decide),
   claim_C10_unknown_level_to_info.2 true
      ⟨JsLevel.str (strL (r"valueOf")), strL (r"Test"),
        PayloadM.items [PayloadItem.plain (strL (r"hi"))], none⟩ false
      (strL (r"valueOf")) rfl rfl (by decide) (by decide)⟩

/-! ## Logger facade: `createLogger` (claim C1) -/

/-- The wire prefix `${name}${SEP}` computed once per logger. -/
def loggerPrefix (name : List Char) : List Char := name ++ [SEP]

/-- Embedding of the `fire` closure inside `createLogger`: the wire text
`${prefix}${formatArgs(msg, args)}` is composed once, before the branch on
the caller location; with no raw location the text is dispatched without
options, otherwise it is dispatched with the (asynchronously) resolved
location.  The caller-location outcome and the resolved location are passed
as parameters (the results of `rawCallerLocation` and `resolveLocation`). -/
def fireDispatch (name msg : List Char) (args : List JsArg)
    (raw : Option RawCallSite) (resolved : LocationM) :
    List Char × Option LocationM :=
  let text := loggerPrefix name ++ formatArgs msg args
  match raw with
  | none => (text, none)
  | some _ => (text, some resolved)

/-- The record of five level methods returned by `createLogger`. -/
structure LoggerM where
  trace : List Char → List JsArg → Option RawCallSite → LocationM → List Char × Option LocationM
  debug : List Char → List JsArg → Option RawCallSite → LocationM → List Char × Option LocationM
  info : List Char → List JsArg → Option RawCallSite → LocationM → List Char × Option LocationM
  warn : List Char → List JsArg → Option RawCallSite → LocationM → List Char × Option LocationM
  error : List Char → List JsArg → Option RawCallSite → LocationM → List Char × Option LocationM

/-- Embedding of `createLogger`: all five level methods dispatch through the
same `fire` closure (they differ only in the plugin sink they hand to it,
which does not affect the composed text). -/
def createLogger (name : List Char) : LoggerM :=
  { trace := fireDispatch name
    debug := fireDispatch name
    info := fireDispatch name
    warn := fireDispatch name
    error := fireDispatch name }

/-- The consumer-side recovery operation at the wire boundary: split a
delivered string at its FIRST U+001F separator into (logger name, message). -/
def splitAtFirstSep : List Char → List Char × List Char
  | [] => ([], [])
  | c :: t =>
    if c = SEP then ([], t)
    else
      let p := splitAtFirstSep t
      (c :: p.1, p.2)

/-- Splitting at the first separator inverts prefixing, for separator-free
names. -/
theorem splitAtFirstSep_append {name rest : List Char} (h : SEP ∉ name) :
    splitAtFirstSep (name ++ SEP :: rest) = (name, rest) := by
  induction name with
  | nil => simp [splitAtFirstSep]
  | cons a t ih =>
    have ha : ¬(a = SEP) := fun hac => h (hac ▸ List.mem_cons_self a t)
    simp only [List.cons_append, splitAtFirstSep, if_neg ha, List.append_eq,
      ih (fun hm => h (List.mem_cons_of_mem _ hm))]

/-! ## Theorems for claim C1 -/

/-- C1: every emit call of a logger created by `createLogger name` — all five
levels dispatch through the same `fire` — delivers to the transport exactly
the single string `name ++ U+001F ++ formatArgs msg args`, whether or not a
caller location was found; consequently, when `name` contains no U+001F,
splitting the delivered string at its first U+001F recovers the name and the
formatted message exactly, for every message content; and every sink
invocation made by the `TauriAppender` likewise carries exactly
`loggerName ++ U+001F ++ message`, recoverable the same way. -/
theorem claim_C1_wire_format :
    (∀ name : List Char,
      (createLogger name).trace = fireDispatch name ∧
      (createLogger name).debug = fireDispatch name ∧
      (createLogger name).info = fireDispatch name ∧
      (createLogger name).warn = fireDispatch name ∧
      (createLogger name).error = fireDispatch name) ∧
    (∀ (name msg : List Char) (args : List JsArg) (raw : Option RawCallSite)
      (resolved : LocationM),
      (fireDispatch name msg args raw resolved).1 =
        name ++ SEP :: formatArgs msg args) ∧
    (∀ (name msg : List Char) (args : List JsArg) (raw : Option RawCallSite)
      (resolved : LocationM), SEP ∉ name →
      splitAtFirstSep (fireDispatch name msg args raw resolved).1 =
        (name, formatArgs msg args)) ∧
    (∀ (d wh : Bool) (ev : ILogEvent) (sf : Bool)
      (fn : LogFn) (t : List Char) (o : Option LocationM),
      (TauriHandle d wh ev sf).2 = some (fn, t, o) →
      t = ev.loggerName ++ SEP :: handleMessage ev.payload) ∧
    (∀ (ev : ILogEvent), SEP ∉ ev.loggerName →
      splitAtFirstSep (handleText ev) = (ev.loggerName, handleMessage ev.payload)) := by
  have htext : ∀ (name msg : List Char) (args : List JsArg) (raw : Option RawCallSite)
      (resolved : LocationM),
      (fireDispatch name msg args raw resolved).1 = name ++ SEP :: formatArgs msg args := by
    intro name msg args raw resolved
    cases raw <;> simp [fireDispatch, loggerPrefix]
  refine ⟨fun name => ⟨rfl, rfl, rfl, rfl, rfl⟩, htext,
    fun name msg args raw resolved h => ?_, fun d wh ev sf fn t o h => ?_,
    fun ev h => splitAtFirstSep_append h⟩
  · rw [htext]
    exact splitAtFirstSep_append h
  · unfold TauriHandle at h
    by_cases hcond : (d || !wh) = true
    · rw [if_pos hcond] at h
      cases h
    · rw [if_neg hcond] at h
      cases sf with
      | true =>
        simp only [if_true] at h
        injection h with h2
        have h3 := congrArg (fun x => x.2.1) h2
        simpa [handleText] using h3.symm
      | false =>
        simp only [Bool.false_eq_true, if_false] at h
        injection h with h2
        have h3 := congrArg (fun x => x.2.1) h2
        simpa [handleText] using h3.symm

/-- Witness for C1 at the spec's end-to-end example: logger `Auth`, message
`User logged in`. -/
theorem claim_C1_wire_format_witness :
    splitAtFirstSep (fireDispatch (strL (r"Auth")) (strL (r"User logged in")) [] none
        ⟨strL (r"src/auth.ts"), 42⟩).1 =
      (strL (r"Auth"), formatArgs (strL (r"User logged in")) []) :=
  claim_C1_wire_format.2.2.1 (strL (r"Auth")) (strL (r"User logged in")) [] none
    ⟨strL (r"src/auth.ts"), 42⟩ (by decide)
